import Mathlib

/-!
Verification of the PageRank estimator in `src/pagerank.py` against its
design document.

Shallow embedding: pages are natural numbers; a corpus (the Python dict
mapping a page to the set of pages it links to) is an association list
`List (Nat × Finset Nat)` in key insertion order, and a probability dict is
an association list `List (Nat × Rat)`.  Arithmetic is exact rational
arithmetic.  Python exceptions are modelled by `Except String`, the string
carrying the Python exception class that the interpreter would raise.  The
randomness of the sampling engine is modelled by oracle arguments: an index
for the initial `random.choice` and, per loop step, an index into the key
list for the weighted `random.choices` draw (both are reduced modulo the
list length, reflecting that the Python primitives always return an element
of the supplied list).  The unbounded `while` loop of the iterative engine
takes explicit fuel; the value `none` means the loop is still running after
that many passes (the source imposes no cap on it).
-/

abbrev Corpus := List (Nat × Finset Nat)

abbrev PDist := List (Nat × ℚ)

/-- Keys of a corpus dict, in insertion order (`corpus.keys()`). -/
def keysOf (corpus : Corpus) : List Nat := corpus.map Prod.fst

/-- Python dict well-formedness plus the corpus invariant of the design
document: keys are unique, and every link target is itself a key (the
ingestion step `crawl` filters links down to pages of the corpus). -/
def WFCorpus (corpus : Corpus) : Prop :=
  (keysOf corpus).Nodup ∧ ∀ kv ∈ corpus, ∀ q ∈ kv.2, q ∈ keysOf corpus

instance (corpus : Corpus) : Decidable (WFCorpus corpus) := by
  unfold WFCorpus; infer_instance

/-- Reading `d[p]` from a probability dict; the engines only ever look up
keys that are present, so the default is never observable. -/
def lookupD (pr : PDist) (p : Nat) : ℚ := (pr.lookup p).getD 0

/-- `sum(d.values())` for a probability dict. -/
def listSum (pr : PDist) : ℚ := (pr.map Prod.snd).sum

/-- The message of the generic `Exception` raised by all three normalization
checks (lines 91, 133 and 195 share one message). -/
def sumErr : String :=
  "Exception: the sum of the probability values does not equal 1"

/-- The normalization comprehension `{page: prob / total for ...}` appearing
at lines 86, 128 and 190. -/
def normalizeDist (pd : PDist) : PDist :=
  pd.map (fun kv => (kv.1, kv.2 / listSum pd))

/-- The normalize-and-check block repeated verbatim at lines 84 to 93, 126 to
133 and 188 to 195 of the source: divide every value by the computed total (a
zero total is a Python `ZeroDivisionError`) and raise the generic `Exception`
if the normalized values do not sum to exactly 1. -/
def checkedNormalize (pd : PDist) : Except String PDist :=
  if listSum pd = 0 then .error "ZeroDivisionError"
  else
    let out := normalizeDist pd
    if listSum out ≠ 1 then .error sumErr else .ok out

/-- The dict comprehension `{key: 1 / len(corpus) for key in corpus}` of
lines 62 and 151.  On an empty corpus the body never runs, so no division by
zero happens here. -/
def uniformDist (corpus : Corpus) : PDist :=
  corpus.map (fun kv => (kv.1, (1 : ℚ) / (corpus.length : ℚ)))

/-- The updated probability dict of lines 71 to 82: every page gets the
random jump term `(1 - d) / len(corpus)`, and a page among the links of the
current page additionally gets `d / len(page_links)`. -/
def linkedDist (corpus : Corpus) (page_links : Finset Nat) (d : ℚ) : PDist :=
  corpus.map (fun kv =>
    (kv.1, if kv.1 ∈ page_links
      then d / (page_links.card : ℚ) + (1 - d) / (corpus.length : ℚ)
      else (1 - d) / (corpus.length : ℚ)))

/-- `transition_model(corpus, page, damping_factor)`, lines 51 to 93.  The
uniform dict of line 62 is built without error for every corpus, so an empty
corpus (or a page that is not a key) surfaces as the `KeyError` of
`corpus[page]` at line 65.  A page without links returns the uniform dict
directly (line 69), skipping normalization and the sum check. -/
def transition_model (corpus : Corpus) (page : Nat) (damping_factor : ℚ) :
    Except String PDist :=
  match corpus.lookup page with
  | none => .error "KeyError"
  | some page_links =>
    if page_links.card = 0 then .ok (uniformDist corpus)
    else checkedNormalize (linkedDist corpus page_links damping_factor)

/-- The sampling loop of lines 112 to 119: at each step the transition
distribution of the current page is computed and the oracle `pick` selects
the next page from its key list; that page gets one more visit. -/
def sampleLoop (corpus : Corpus) (damping_factor : ℚ) (pick : Nat → Nat) :
    Nat → Nat → Nat → (Nat → Nat) → Except String (Nat → Nat)
  | 0, _, _, counts => .ok counts
  | steps + 1, i, start_page, counts =>
    match transition_model corpus start_page damping_factor with
    | .error e => .error e
    | .ok current_state =>
      let ks := current_state.map Prod.fst
      let next_page := ks.getD (pick i % ks.length) 0
      sampleLoop corpus damping_factor pick steps (i + 1) next_page
        (fun q => if q = next_page then counts q + 1 else counts q)

/-- `sample_pagerank(corpus, damping_factor, n)`, lines 97 to 135.
`random.choice` on the empty key list is the Python `IndexError`; otherwise
the oracle index `pick0` selects the start page.  After the loop, a visit
count that stayed 0 is left untouched by the guard `if page_rank[page] > 0`
of line 123, and a positive count is divided by `n`. -/
def sample_pagerank (corpus : Corpus) (damping_factor : ℚ) (n : Nat)
    (pick0 : Nat) (pick : Nat → Nat) : Except String PDist :=
  let ks := keysOf corpus
  if ks.length = 0 then .error "IndexError"
  else
    let start_page := ks.getD (pick0 % ks.length) 0
    match sampleLoop corpus damping_factor pick n 0 start_page (fun _ => 0) with
    | .error e => .error e
    | .ok counts =>
      checkedNormalize (corpus.map (fun kv =>
        (kv.1, if 0 < counts kv.1 then (counts kv.1 : ℚ) / (n : ℚ) else 0)))

/-- Python dict assignment `page_rank[page] = v` for a key that is already
present: the value stored under that key is replaced. -/
def setKey (pr : PDist) (page : Nat) (v : ℚ) : PDist :=
  pr.map (fun kv => if kv.1 = page then (kv.1, v) else kv)

/-- The accumulation of lines 170 to 176: over every page `p` of the corpus
whose link set contains `page`, add `previous_page_rank[p] / len(corpus[p])`.
A page with an empty link set never passes the membership test, so it
contributes nothing (and its zero outdegree is never divided by). -/
def secondCond (corpus : Corpus) (previous : PDist) (page : Nat) : ℚ :=
  (corpus.map (fun kv =>
    if page ∈ kv.2 then lookupD previous kv.1 / (kv.2.card : ℚ) else 0)).sum

/-- One convergence pass, lines 168 to 178: every key of `page_rank` is
overwritten in order, each new value reading only the frozen
`previous_page_rank` snapshot taken at line 165. -/
def iteratePass (corpus : Corpus) (damping_factor first_condition : ℚ)
    (previous : PDist) : PDist :=
  (previous.map Prod.fst).foldl
    (fun pr page =>
      setKey pr page
        (first_condition + damping_factor * secondCond corpus previous page))
    previous

/-- The convergence count of lines 181 to 184: how many pages moved by more
than the threshold during the last pass. -/
def exceedCount (threshold : ℚ) (previous current : PDist) : Nat :=
  (current.map Prod.fst).countP
    (fun page => decide (threshold < |lookupD previous page - lookupD current page|))

/-- The `while not convergence` loop of lines 163 to 186, with explicit fuel:
`none` means the loop is still running after that many passes.  The source
has no iteration cap, so exhausted fuel never produces a value or an
error. -/
def iterateLoop (corpus : Corpus) (damping_factor first_condition threshold : ℚ) :
    Nat → PDist → Option PDist
  | 0, _ => none
  | fuel + 1, page_rank =>
    let previous_page_rank := page_rank
    let next := iteratePass corpus damping_factor first_condition previous_page_rank
    if exceedCount threshold previous_page_rank next = 0 then some next
    else iterateLoop corpus damping_factor first_condition threshold fuel next

/-- `iterate_pagerank(corpus, damping_factor)`, lines 141 to 197.  On an
empty corpus the comprehension of line 151 yields the empty dict and
`(1 - damping_factor) / len(page_rank)` at line 160 raises the Python
`ZeroDivisionError`.  The convergence threshold is the literal 0.001 of
line 157 and `first_condition` is computed once, before the loop. -/
def iterate_pagerank (fuel : Nat) (corpus : Corpus) (damping_factor : ℚ) :
    Option (Except String PDist) :=
  let page_rank := uniformDist corpus
  if page_rank.length = 0 then some (.error "ZeroDivisionError")
  else
    let first_condition := (1 - damping_factor) / (page_rank.length : ℚ)
    Option.map checkedNormalize
      (iterateLoop corpus damping_factor first_condition (1 / 1000) fuel page_rank)

/-- The two-page corpus `{A: {B}, B: {A}}` of the design document, with
page A as 0 and page B as 1. -/
def corpusAB : Corpus := [(0, {1}), (1, {0})]

/-- A three-page corpus `{A: {B}, B: {A}, C: {B}}` on which the iterative
recurrence with damping factor 1 oscillates forever. -/
def corpus3 : Corpus := [(0, {1}), (1, {0}), (2, {1})]

/-- First state of the period-two oscillation of `corpus3` at damping 1. -/
def osc1 : PDist := [(0, 1/3), (1, 2/3), (2, 0)]

/-- Second state of the period-two oscillation of `corpus3` at damping 1. -/
def osc2 : PDist := [(0, 2/3), (1, 1/3), (2, 0)]

/-- A two-page corpus whose page 0 is dangling (no outbound links). -/
def corpusD : Corpus := [(0, ∅), (1, {0})]

/-- The convergence loop of the iterative engine runs forever on this input:
whatever the fuel, the engine is still inside its `while` loop. -/
def iterateNeverTerminates (corpus : Corpus) (damping_factor : ℚ) : Prop :=
  ∀ fuel, iterate_pagerank fuel corpus damping_factor = none

/-! ### Association-list and list-sum helper lemmas -/

theorem lookup_map_entryfun {α β : Type} (g : Nat × α → β) :
    ∀ (l : List (Nat × α)) (p : Nat) (v : α), l.lookup p = some v →
      (l.map (fun kv => (kv.1, g kv))).lookup p = some (g (p, v)) := by
  intro l
  induction l with
  | nil => intro p v h; simp [List.lookup] at h
  | cons kv t ih =>
    intro p v h
    by_cases hpk : p = kv.1
    · have hsome : some kv.2 = some v := by simpa [List.lookup, hpk] using h
      have hv : kv.2 = v := by injection hsome
      subst hpk
      subst hv
      simp [List.lookup]
    · have hb : (p == kv.1) = false := by simpa using hpk
      have ht : t.lookup p = some v := by simpa [List.lookup, hb] using h
      simpa [List.lookup, hb] using ih p v ht

theorem lookup_of_mem_keys {α : Type} :
    ∀ (l : List (Nat × α)) (p : Nat), p ∈ l.map Prod.fst →
      ∃ v, l.lookup p = some v := by
  intro l
  induction l with
  | nil => intro p hp; simp at hp
  | cons kv t ih =>
    intro p hp
    by_cases h : p = kv.1
    · exact ⟨kv.2, by simp [List.lookup, h]⟩
    · have hb : (p == kv.1) = false := by simpa using h
      have hp2 : p ∈ t.map Prod.fst := by
        rcases (by simpa using hp : p = kv.1 ∨ p ∈ t.map Prod.fst) with h1 | h2
        · exact absurd h1 h
        · exact h2
      rcases ih p hp2 with ⟨v, hv⟩
      exact ⟨v, by simp [List.lookup, hb, hv]⟩

theorem mem_of_lookup_eq_some {α : Type} :
    ∀ (l : List (Nat × α)) (p : Nat) (v : α), l.lookup p = some v →
      (p, v) ∈ l := by
  intro l
  induction l with
  | nil => intro p v h; simp [List.lookup] at h
  | cons kv t ih =>
    intro p v h
    by_cases hpk : p = kv.1
    · have hsome : some kv.2 = some v := by simpa [List.lookup, hpk] using h
      have hv : kv.2 = v := by injection hsome
      subst hpk
      subst hv
      exact List.mem_cons_self _ _
    · have hb : (p == kv.1) = false := by simpa using hpk
      have := ih p v (by simpa [List.lookup, hb] using h)
      exact List.mem_cons_of_mem _ this

theorem keys_map_entryfun {α β : Type} (g : Nat × α → β) (l : List (Nat × α)) :
    (l.map (fun kv => (kv.1, g kv))).map Prod.fst = l.map Prod.fst := by
  simp [List.map_map]

theorem sum_map_div (t : ℚ) :
    ∀ l : List ℚ, (l.map (fun x => x / t)).sum = l.sum / t := by
  intro l
  induction l with
  | nil => simp
  | cons x xs ih => simp [ih, add_div]

theorem sum_map_const {α : Type} (x : ℚ) :
    ∀ l : List α, (l.map (fun _ => x)).sum = (l.length : ℚ) * x := by
  intro l
  induction l with
  | nil => simp
  | cons a t ih =>
    simp [ih]
    ring

theorem listSum_map_entryfun {α : Type} (g : Nat × α → ℚ) (l : List (Nat × α)) :
    listSum (l.map (fun kv => (kv.1, g kv))) = (l.map g).sum := by
  rw [listSum, List.map_map]
  rfl

theorem sum_map_ite_const {α : Type} (L : Finset Nat) (a b : ℚ) :
    ∀ l : List (Nat × α),
      (l.map (fun kv => if kv.1 ∈ L then a + b else b)).sum
        = (((l.map Prod.fst).filter (fun k => decide (k ∈ L))).length : ℚ) * a
            + (l.length : ℚ) * b := by
  intro l
  induction l with
  | nil => simp
  | cons kv t ih =>
    by_cases h : kv.1 ∈ L
    · simp [List.filter, h, ih]
      ring
    · simp [List.filter, h, ih]
      ring

theorem length_filter_mem (ks : List Nat) (L : Finset Nat)
    (hnd : ks.Nodup) (hsub : ∀ q ∈ L, q ∈ ks) :
    (ks.filter (fun k => decide (k ∈ L))).length = L.card := by
  have hfn : (ks.filter (fun k => decide (k ∈ L))).Nodup := hnd.filter _
  have h1 : (ks.filter (fun k => decide (k ∈ L))).toFinset
      = ks.toFinset.filter (fun k => k ∈ L) := by
    ext x
    simp [List.mem_filter]
  have h2 : ks.toFinset.filter (fun k => k ∈ L) = L := by
    ext x
    simp only [Finset.mem_filter, List.mem_toFinset]
    constructor
    · intro hx; exact hx.2
    · intro hx; exact ⟨hsub x hx, hx⟩
  calc (ks.filter (fun k => decide (k ∈ L))).length
      = (ks.filter (fun k => decide (k ∈ L))).toFinset.card :=
        (List.toFinset_card_of_nodup hfn).symm
    _ = L.card := by rw [h1, h2]

theorem sum_ite_filter {α : Type} (P : α → Prop) [DecidablePred P] (f : α → ℚ) :
    ∀ l : List α,
      (l.map (fun x => if P x then f x else 0)).sum
        = ((l.filter (fun x => decide (P x))).map f).sum := by
  intro l
  induction l with
  | nil => simp
  | cons x xs ih =>
    by_cases h : P x
    · simp [List.filter, h, ih]
    · simp [List.filter, h, ih]

theorem sum_map_update (x : Nat) (f : Nat → Nat) :
    ∀ ks : List Nat, ks.Nodup → x ∈ ks →
      (ks.map (fun q => if q = x then f q + 1 else f q)).sum
        = (ks.map f).sum + 1 := by
  intro ks
  induction ks with
  | nil => intro _ hx; simp at hx
  | cons a t ih =>
    intro hnd hx
    have hnd2 : t.Nodup := hnd.of_cons
    have hat : a ∉ t := by
      intro hmem
      exact (List.nodup_cons.mp hnd).1 hmem
    by_cases h : a = x
    · have hxt : x ∉ t := h ▸ hat
      have : t.map (fun q => if q = x then f q + 1 else f q) = t.map f := by
        apply List.map_congr_left
        intro q hq
        have : q ≠ x := fun hq2 => hxt (hq2 ▸ hq)
        simp [this]
      simp [h, this]
      omega
    · have hxt : x ∈ t := by
        rcases List.mem_cons.mp hx with h1 | h2
        · exact absurd h1.symm h
        · exact h2
      have hax : ¬ (a = x) := h
      simp [hax, ih hnd2 hxt]
      omega

/-! ### Normalization lemmas -/

theorem listSum_normalizeDist (pd : PDist) (h : listSum pd ≠ 0) :
    listSum (normalizeDist pd) = 1 := by
  have h1 : listSum (normalizeDist pd)
      = ((pd.map Prod.snd).map (fun x => x / listSum pd)).sum := by
    rw [normalizeDist, listSum_map_entryfun, List.map_map]
    rfl
  rw [h1, sum_map_div]
  show listSum pd / listSum pd = 1
  exact div_self h

theorem normalizeDist_of_sum_one (pd : PDist) (h : listSum pd = 1) :
    normalizeDist pd = pd := by
  unfold normalizeDist
  rw [h]
  simp

theorem checkedNormalize_of_sum_one (pd : PDist) (h : listSum pd = 1) :
    checkedNormalize pd = .ok pd := by
  have h0 : listSum pd ≠ 0 := by rw [h]; norm_num
  simp [checkedNormalize, h0, normalizeDist_of_sum_one pd h, h]

theorem checkedNormalize_error_cases (pd : PDist) (e : String)
    (h : checkedNormalize pd = .error e) :
    e = "ZeroDivisionError" ∨ e = sumErr := by
  simp only [checkedNormalize] at h
  by_cases h0 : listSum pd = 0
  · rw [if_pos h0] at h
    injection h with h2
    exact Or.inl h2.symm
  · rw [if_neg h0] at h
    by_cases h1 : listSum (normalizeDist pd) ≠ 1
    · rw [if_pos h1] at h
      injection h with h2
      exact Or.inr h2.symm
    · rw [if_neg h1] at h
      simp at h

theorem checkedNormalize_ne_sumErr (pd : PDist) :
    checkedNormalize pd ≠ .error sumErr := by
  intro h
  by_cases h0 : listSum pd = 0
  · simp [checkedNormalize, h0] at h
    have : "ZeroDivisionError" = sumErr := h
    simp [sumErr] at this
  · have h1 : listSum (normalizeDist pd) = 1 := listSum_normalizeDist pd h0
    simp [checkedNormalize, h0, h1] at h

/-! ### Transition-model lemmas -/

theorem corpus_ne_nil_of_lookup {corpus : Corpus} {p : Nat} {L : Finset Nat}
    (hL : corpus.lookup p = some L) : corpus ≠ [] := by
  intro h
  subst h
  simp [List.lookup] at hL

theorem transition_model_dangling (corpus : Corpus) (p : Nat) (d : ℚ)
    (L : Finset Nat) (hL : corpus.lookup p = some L) (h0 : L.card = 0) :
    transition_model corpus p d = .ok (uniformDist corpus) := by
  unfold transition_model
  rw [hL]
  simp [h0]

theorem linkedDist_sum_one (corpus : Corpus) (p : Nat) (d : ℚ) (L : Finset Nat)
    (hWF : WFCorpus corpus) (hL : corpus.lookup p = some L) (h0 : L.card ≠ 0) :
    listSum (linkedDist corpus L d) = 1 := by
  have hne : corpus ≠ [] := corpus_ne_nil_of_lookup hL
  have hlen0 : corpus.length ≠ 0 := by simpa [List.length_eq_zero] using hne
  have hlen : (corpus.length : ℚ) ≠ 0 := Nat.cast_ne_zero.mpr hlen0
  have hcard : (L.card : ℚ) ≠ 0 := Nat.cast_ne_zero.mpr h0
  have hsub : ∀ q ∈ L, q ∈ corpus.map Prod.fst := by
    intro q hq
    exact hWF.2 (p, L) (mem_of_lookup_eq_some corpus p L hL) q hq
  have hnd : (corpus.map Prod.fst).Nodup := hWF.1
  have hfl : ((corpus.map Prod.fst).filter (fun k => decide (k ∈ L))).length
      = L.card := length_filter_mem _ _ hnd hsub
  unfold linkedDist
  rw [listSum_map_entryfun]
  rw [sum_map_ite_const, hfl]
  field_simp

theorem transition_model_linked (corpus : Corpus) (p : Nat) (d : ℚ)
    (L : Finset Nat) (hWF : WFCorpus corpus) (hL : corpus.lookup p = some L)
    (h0 : L.card ≠ 0) :
    transition_model corpus p d = .ok (linkedDist corpus L d) := by
  unfold transition_model
  rw [hL]
  simp only [h0, if_false]
  exact checkedNormalize_of_sum_one _ (linkedDist_sum_one corpus p d L hWF hL h0)

theorem lookupD_linkedDist (corpus : Corpus) (L : Finset Nat) (d : ℚ) (q : Nat)
    (hq : q ∈ corpus.map Prod.fst) :
    lookupD (linkedDist corpus L d) q
      = if q ∈ L then d / (L.card : ℚ) + (1 - d) / (corpus.length : ℚ)
        else (1 - d) / (corpus.length : ℚ) := by
  rcases lookup_of_mem_keys corpus q hq with ⟨v, hv⟩
  unfold lookupD linkedDist
  rw [lookup_map_entryfun _ corpus q v hv]
  rfl

theorem listSum_uniformDist (corpus : Corpus) (hne : corpus ≠ []) :
    listSum (uniformDist corpus) = 1 := by
  have hlen0 : corpus.length ≠ 0 := by simpa [List.length_eq_zero] using hne
  have hlen : (corpus.length : ℚ) ≠ 0 := Nat.cast_ne_zero.mpr hlen0
  unfold uniformDist
  rw [listSum_map_entryfun, sum_map_const]
  field_simp

theorem keysOf_uniformDist (corpus : Corpus) :
    (uniformDist corpus).map Prod.fst = corpus.map Prod.fst := by
  unfold uniformDist
  exact keys_map_entryfun _ _

theorem keysOf_linkedDist (corpus : Corpus) (L : Finset Nat) (d : ℚ) :
    (linkedDist corpus L d).map Prod.fst = corpus.map Prod.fst := by
  unfold linkedDist
  exact keys_map_entryfun _ _

/-! ### Iterative-pass lemmas -/

theorem foldl_setKey (v : Nat → ℚ) :
    ∀ (ks : List Nat) (pr : PDist),
      ks.foldl (fun acc page => setKey acc page (v page)) pr
        = pr.map (fun kv => if kv.1 ∈ ks then (kv.1, v kv.1) else kv) := by
  intro ks
  induction ks with
  | nil =>
    intro pr
    simp
  | cons a t ih =>
    intro pr
    rw [List.foldl_cons, ih]
    unfold setKey
    rw [List.map_map]
    apply List.map_congr_left
    intro kv _
    by_cases h1 : kv.1 ∈ t
    · by_cases h2 : kv.1 = a
      · simp [Function.comp, List.mem_cons, h1, h2]
      · simp [Function.comp, List.mem_cons, h1, h2]
    · by_cases h2 : kv.1 = a
      · simp [Function.comp, List.mem_cons, h1, h2]
      · simp [Function.comp, List.mem_cons, h1, h2]

theorem iteratePass_eq (corpus : Corpus) (d fc : ℚ) (prev : PDist) :
    iteratePass corpus d fc prev
      = prev.map (fun kv => (kv.1, fc + d * secondCond corpus prev kv.1)) := by
  unfold iteratePass
  rw [foldl_setKey]
  apply List.map_congr_left
  intro kv hkv
  have hmem : kv.1 ∈ prev.map Prod.fst := List.mem_map_of_mem Prod.fst hkv
  simp [hmem]

theorem keysOf_iteratePass (corpus : Corpus) (d fc : ℚ) (prev : PDist) :
    (iteratePass corpus d fc prev).map Prod.fst = prev.map Prod.fst := by
  rw [iteratePass_eq]
  exact keys_map_entryfun _ _

theorem lookupD_iteratePass (corpus : Corpus) (d fc : ℚ) (prev : PDist) (p : Nat)
    (hp : p ∈ prev.map Prod.fst) :
    lookupD (iteratePass corpus d fc prev) p
      = fc + d * secondCond corpus prev p := by
  rcases lookup_of_mem_keys prev p hp with ⟨v, hv⟩
  rw [iteratePass_eq]
  unfold lookupD
  rw [lookup_map_entryfun _ prev p v hv]
  rfl

theorem secondCond_eq_filter (corpus : Corpus) (prev : PDist) (page : Nat) :
    secondCond corpus prev page
      = ((corpus.filter (fun kv => decide (page ∈ kv.2))).map
          (fun kv => lookupD prev kv.1 / (kv.2.card : ℚ))).sum := by
  unfold secondCond
  exact sum_ite_filter (fun kv => page ∈ kv.2)
    (fun kv => lookupD prev kv.1 / (kv.2.card : ℚ)) corpus

/-! ### Transition-model success and error taxonomy -/

theorem transition_model_ok_keys (corpus : Corpus) (p : Nat) (d : ℚ)
    (hWF : WFCorpus corpus) (hp : p ∈ corpus.map Prod.fst) :
    ∃ pd, transition_model corpus p d = .ok pd ∧
      pd.map Prod.fst = corpus.map Prod.fst := by
  rcases lookup_of_mem_keys corpus p hp with ⟨L, hL⟩
  by_cases h0 : L.card = 0
  · exact ⟨uniformDist corpus, transition_model_dangling corpus p d L hL h0,
      keysOf_uniformDist corpus⟩
  · exact ⟨linkedDist corpus L d, transition_model_linked corpus p d L hWF hL h0,
      keysOf_linkedDist corpus L d⟩

theorem transition_model_ne_sumErr (corpus : Corpus) (p : Nat) (d : ℚ) :
    transition_model corpus p d ≠ .error sumErr := by
  unfold transition_model
  cases hL : corpus.lookup p with
  | none =>
    intro h
    injection h with h2
    simp [sumErr] at h2
  | some L =>
    by_cases h0 : L.card = 0
    · simp [h0]
    · simp only [h0, if_false]
      exact checkedNormalize_ne_sumErr _

theorem getD_mem_of_lt {α : Type} (l : List α) (n : Nat) (x : α)
    (h : n < l.length) : l.getD n x ∈ l := by
  rw [List.getD_eq_getElem l x h]
  exact List.getElem_mem h

theorem sampleLoop_succ (corpus : Corpus) (d : ℚ) (pick : Nat → Nat)
    (k i cur : Nat) (counts : Nat → Nat) (pd : PDist)
    (hpd : transition_model corpus cur d = .ok pd) :
    sampleLoop corpus d pick (k + 1) i cur counts
      = sampleLoop corpus d pick k (i + 1)
          ((pd.map Prod.fst).getD (pick i % (pd.map Prod.fst).length) 0)
          (fun q =>
            if q = (pd.map Prod.fst).getD (pick i % (pd.map Prod.fst).length) 0
            then counts q + 1 else counts q) := by
  simp only [sampleLoop, hpd]

theorem sampleLoop_ok (corpus : Corpus) (d : ℚ) (pick : Nat → Nat)
    (hWF : WFCorpus corpus) :
    ∀ (steps i cur : Nat) (counts : Nat → Nat), cur ∈ corpus.map Prod.fst →
      ∃ cts, sampleLoop corpus d pick steps i cur counts = .ok cts ∧
        ((corpus.map Prod.fst).map cts).sum
          = ((corpus.map Prod.fst).map counts).sum + steps := by
  intro steps
  induction steps with
  | zero =>
    intro i cur counts hcur
    exact ⟨counts, rfl, by simp⟩
  | succ k ih =>
    intro i cur counts hcur
    rcases transition_model_ok_keys corpus cur d hWF hcur with ⟨pd, hpd, hkeys⟩
    have hlen : pick i % (pd.map Prod.fst).length < (pd.map Prod.fst).length := by
      apply Nat.mod_lt
      rw [hkeys]
      rcases List.length_pos.mpr (List.ne_nil_of_mem hcur) with h
      simpa using h
    have hmem : (pd.map Prod.fst).getD (pick i % (pd.map Prod.fst).length) 0
        ∈ corpus.map Prod.fst := by
      rw [← hkeys]
      exact getD_mem_of_lt _ _ _ hlen
    rcases ih (i + 1)
        ((pd.map Prod.fst).getD (pick i % (pd.map Prod.fst).length) 0)
        (fun q =>
          if q = (pd.map Prod.fst).getD (pick i % (pd.map Prod.fst).length) 0
          then counts q + 1 else counts q) hmem with ⟨cts, hcts, hsum⟩
    refine ⟨cts, ?_, ?_⟩
    · rw [sampleLoop_succ corpus d pick k i cur counts pd hpd]
      exact hcts
    · rw [hsum, sum_map_update _ counts (corpus.map Prod.fst) hWF.1 hmem]
      omega

theorem sampleLoop_ne_sumErr (corpus : Corpus) (d : ℚ) (pick : Nat → Nat) :
    ∀ (steps i cur : Nat) (counts : Nat → Nat),
      sampleLoop corpus d pick steps i cur counts ≠ .error sumErr := by
  intro steps
  induction steps with
  | zero =>
    intro i cur counts h
    simp [sampleLoop] at h
  | succ k ih =>
    intro i cur counts h
    simp only [sampleLoop] at h
    cases htm : transition_model corpus cur d with
    | error e =>
      simp only [htm] at h
      injection h with h2
      exact transition_model_ne_sumErr corpus cur d (by rw [htm, h2])
    | ok pd =>
      simp only [htm] at h
      exact ih _ _ _ h

theorem sample_pagerank_ne_sumErr (corpus : Corpus) (d : ℚ) (n pick0 : Nat)
    (pick : Nat → Nat) :
    sample_pagerank corpus d n pick0 pick ≠ .error sumErr := by
  intro h
  simp only [sample_pagerank] at h
  by_cases hk : (keysOf corpus).length = 0
  · rw [if_pos hk] at h
    injection h with h2
    simp [sumErr] at h2
  · rw [if_neg hk] at h
    cases hsl : sampleLoop corpus d pick n 0
        ((keysOf corpus).getD (pick0 % (keysOf corpus).length) 0) (fun _ => 0) with
    | error e =>
      simp only [hsl] at h
      injection h with h2
      exact sampleLoop_ne_sumErr corpus d pick n 0 _ _ (by rw [hsl, h2])
    | ok counts =>
      simp only [hsl] at h
      exact checkedNormalize_ne_sumErr _ h

theorem iterate_pagerank_error_cases (fuel : Nat) (corpus : Corpus) (d : ℚ)
    (e : String) (h : iterate_pagerank fuel corpus d = some (.error e)) :
    e = "ZeroDivisionError" ∨ e = sumErr := by
  simp only [iterate_pagerank] at h
  by_cases hk : (uniformDist corpus).length = 0
  · rw [if_pos hk] at h
    injection h with h2
    injection h2 with h3
    exact Or.inl h3.symm
  · rw [if_neg hk] at h
    cases hloop : iterateLoop corpus d
        ((1 - d) / ((uniformDist corpus).length : ℚ)) (1 / 1000) fuel
        (uniformDist corpus) with
    | none =>
      rw [hloop] at h
      simp at h
    | some final =>
      rw [hloop] at h
      simp only [Option.map_some'] at h
      injection h with h2
      exact checkedNormalize_error_cases final e h2

theorem iterate_pagerank_ne_sumErr (fuel : Nat) (corpus : Corpus) (d : ℚ) :
    iterate_pagerank fuel corpus d ≠ some (.error sumErr) := by
  intro h
  simp only [iterate_pagerank] at h
  by_cases hk : (uniformDist corpus).length = 0
  · rw [if_pos hk] at h
    injection h with h2
    injection h2 with h3
    simp [sumErr] at h3
  · rw [if_neg hk] at h
    cases hloop : iterateLoop corpus d
        ((1 - d) / ((uniformDist corpus).length : ℚ)) (1 / 1000) fuel
        (uniformDist corpus) with
    | none =>
      rw [hloop] at h
      simp at h
    | some final =>
      rw [hloop] at h
      simp only [Option.map_some'] at h
      injection h with h2
      exact checkedNormalize_ne_sumErr final h2

/-! ### Claim theorems: the transition model -/

/-- C1: for every corpus, page `p` of the corpus and damping factor, the
transition model returns the uniform distribution `1/len(corpus)` when `p`
has no outbound links, and otherwise assigns every page `q` the random jump
term `(1-d)/len(corpus)` plus, when `q` is among the links of `p`, the link
term `d/len(page_links)`; the final normalization divides by the computed
sum, which is exactly 1, so these are also the returned values. -/
theorem transition_model_formula_C1 (corpus : Corpus) (p : Nat) (d : ℚ)
    (L : Finset Nat) (hWF : WFCorpus corpus) (hL : corpus.lookup p = some L) :
    (L.card = 0 → transition_model corpus p d = .ok (uniformDist corpus)) ∧
    (L.card ≠ 0 → transition_model corpus p d =
      .ok (corpus.map (fun kv =>
        (kv.1, (1 - d) / (corpus.length : ℚ)
          + if kv.1 ∈ L then d / (L.card : ℚ) else 0)))) := by
  constructor
  · intro h0
    exact transition_model_dangling corpus p d L hL h0
  · intro h0
    rw [transition_model_linked corpus p d L hWF hL h0]
    congr 1
    unfold linkedDist
    apply List.map_congr_left
    intro kv _
    by_cases h : kv.1 ∈ L
    · simp [h]
      ring
    · simp [h]

/-- Witness for the C1 theorem: the dangling branch on `corpusD` and the
linked branch on `corpus3`, both at damping 0.85. -/
theorem transition_model_formula_C1_witness :
    transition_model corpusD 0 (17/20) = .ok (uniformDist corpusD) ∧
    transition_model corpus3 0 (17/20) =
      .ok (corpus3.map (fun kv =>
        (kv.1, (1 - (17/20 : ℚ)) / (corpus3.length : ℚ)
          + if kv.1 ∈ ({1} : Finset Nat)
            then (17/20 : ℚ) / ((({1} : Finset Nat).card : ℚ)) else 0))) :=
  ⟨(transition_model_formula_C1 corpusD 0 (17/20) ∅ (by decide) (by decide)).1
      (by decide),
   (transition_model_formula_C1 corpus3 0 (17/20) {1} (by decide) (by decide)).2
      (by decide)⟩

/-- C3: for every damping factor in (0,1), well-formed non-empty corpus and
page of the corpus, the transition model succeeds and its values sum to 1
within 1e-9 (in exact arithmetic the sum is exactly 1). -/
theorem transition_model_sums_C3 (corpus : Corpus) (p : Nat) (d : ℚ)
    (_hd0 : 0 < d) (_hd1 : d < 1) (hWF : WFCorpus corpus) (hne : corpus ≠ [])
    (hp : p ∈ keysOf corpus) :
    ∃ pd, transition_model corpus p d = .ok pd
      ∧ |listSum pd - 1| ≤ 1 / 1000000000 := by
  rcases lookup_of_mem_keys corpus p hp with ⟨L, hL⟩
  by_cases h0 : L.card = 0
  · refine ⟨uniformDist corpus, transition_model_dangling corpus p d L hL h0, ?_⟩
    rw [listSum_uniformDist corpus hne]
    norm_num
  · refine ⟨linkedDist corpus L d,
      transition_model_linked corpus p d L hWF hL h0, ?_⟩
    rw [linkedDist_sum_one corpus p d L hWF hL h0]
    norm_num

/-- Witness for the C3 theorem on the two-page cycle at damping 0.85. -/
theorem transition_model_sums_C3_witness :
    ∃ pd, transition_model corpusAB 0 (17/20) = .ok pd
      ∧ |listSum pd - 1| ≤ 1 / 1000000000 :=
  transition_model_sums_C3 corpusAB 0 (17/20) (by norm_num) (by norm_num)
    (by decide) (by decide) (by decide)

/-- C7: for a page with outbound links and positive damping, every linked
page receives strictly larger transition probability than every non-linked
page of the corpus. -/
theorem linked_exceeds_unlinked_C7 (corpus : Corpus) (p : Nat) (d : ℚ)
    (L : Finset Nat) (q1 q2 : Nat) (hWF : WFCorpus corpus)
    (hL : corpus.lookup p = some L) (h0 : L.card ≠ 0) (hd : 0 < d)
    (hq1 : q1 ∈ L) (hq2k : q2 ∈ keysOf corpus) (hq2 : q2 ∉ L) :
    ∃ pd, transition_model corpus p d = .ok pd
      ∧ lookupD pd q2 < lookupD pd q1 := by
  refine ⟨linkedDist corpus L d,
    transition_model_linked corpus p d L hWF hL h0, ?_⟩
  have hq1k : q1 ∈ corpus.map Prod.fst :=
    hWF.2 (p, L) (mem_of_lookup_eq_some corpus p L hL) q1 hq1
  rw [lookupD_linkedDist corpus L d q1 hq1k,
    lookupD_linkedDist corpus L d q2 hq2k]
  rw [if_pos hq1, if_neg hq2]
  have hcard : (0 : ℚ) < (L.card : ℚ) := by
    have := Nat.pos_of_ne_zero h0
    exact_mod_cast this
  have hpos : 0 < d / (L.card : ℚ) := div_pos hd hcard
  linarith

/-- Witness for the C7 theorem: in `corpus3`, from page 0 the linked page 1
beats the non-linked page 0 at damping 0.85. -/
theorem linked_exceeds_unlinked_C7_witness :
    ∃ pd, transition_model corpus3 0 (17/20) = .ok pd
      ∧ lookupD pd 0 < lookupD pd 1 :=
  linked_exceeds_unlinked_C7 corpus3 0 (17/20) {1} 1 0 (by decide) (by decide)
    (by decide) (by norm_num) (by decide) (by decide) (by decide)

/-! ### Claim theorems: error behavior on the boundary -/

/-- C9 (amended): on the empty corpus the transition model raises the Python
KeyError of `corpus[page]`, the sampling engine raises the IndexError of
`random.choice([])`, and the iterative engine raises the ZeroDivisionError
of `(1 - damping_factor) / len(page_rank)`; no InvalidArgument condition
exists anywhere in the program. -/
theorem empty_corpus_errors_C9 :
    (∀ (p : Nat) (d : ℚ), transition_model [] p d = .error "KeyError") ∧
    (∀ (d : ℚ) (n pick0 : Nat) (pick : Nat → Nat),
      sample_pagerank [] d n pick0 pick = .error "IndexError") ∧
    (∀ (fuel : Nat) (d : ℚ),
      iterate_pagerank fuel [] d = some (.error "ZeroDivisionError")) :=
  ⟨fun _ _ => rfl, fun _ _ _ _ => rfl, fun _ _ => rfl⟩

/-- C9 counterexample: at the empty corpus with damping 0.85 the three
engines raise KeyError, IndexError and ZeroDivisionError respectively, not
an InvalidArgument condition. -/
theorem empty_corpus_errors_C9_cex :
    transition_model [] 0 (17/20) = .error "KeyError"
      ∧ sample_pagerank [] (17/20) 10 0 (fun i => i) = .error "IndexError"
      ∧ iterate_pagerank 3 [] (17/20) = some (.error "ZeroDivisionError") :=
  ⟨rfl, rfl, rfl⟩

/-- C10: under exact arithmetic the shared normalization step produces a
distribution summing to exactly 1 whenever the pre-normalization total is
positive, and consequently no engine can ever reach the raise branch of the
sum check: none of the three functions returns the sum-check exception. -/
theorem normalization_exact_C10 :
    (∀ pd : PDist, 0 < listSum pd → listSum (normalizeDist pd) = 1) ∧
    (∀ (corpus : Corpus) (p : Nat) (d : ℚ),
      transition_model corpus p d ≠ .error sumErr) ∧
    (∀ (corpus : Corpus) (d : ℚ) (n pick0 : Nat) (pick : Nat → Nat),
      sample_pagerank corpus d n pick0 pick ≠ .error sumErr) ∧
    (∀ (fuel : Nat) (corpus : Corpus) (d : ℚ),
      iterate_pagerank fuel corpus d ≠ some (.error sumErr)) :=
  ⟨fun pd h => listSum_normalizeDist pd (ne_of_gt h),
   transition_model_ne_sumErr,
   sample_pagerank_ne_sumErr,
   iterate_pagerank_ne_sumErr⟩

/-- Witness for the C10 theorem: normalizing a one-entry dict with positive
total gives sum exactly 1. -/
theorem normalization_exact_C10_witness :
    listSum (normalizeDist [(0, 2)]) = 1 :=
  normalization_exact_C10.1 [(0, 2)] (by norm_num [listSum])

/-! ### Sampling-engine helpers and the iterative-engine concrete runs -/


theorem sample_pagerank_zero (corpus : Corpus) (d : ℚ) (pick0 : Nat)
    (pick : Nat → Nat) (hne : corpus ≠ []) :
    sample_pagerank corpus d 0 pick0 pick = .error "ZeroDivisionError" := by
  have hk : (keysOf corpus).length ≠ 0 := by
    simpa [keysOf, List.length_eq_zero] using hne
  simp only [sample_pagerank, sampleLoop]
  rw [if_neg hk]
  have hsum : listSum (corpus.map (fun kv => (kv.1, (0 : ℚ)))) = 0 := by
    rw [listSum_map_entryfun]
    simp
  simp [checkedNormalize, hsum]

theorem sample_pagerank_ok (corpus : Corpus) (d : ℚ) (n pick0 : Nat)
    (pick : Nat → Nat) (hWF : WFCorpus corpus) (hne : corpus ≠ [])
    (hn : 1 ≤ n) :
    ∃ pr, sample_pagerank corpus d n pick0 pick = .ok pr ∧ listSum pr = 1 := by
  have hk : (keysOf corpus).length ≠ 0 := by
    simpa [keysOf, List.length_eq_zero] using hne
  have hnq : ((n : ℚ)) ≠ 0 := by
    have : n ≠ 0 := by omega
    exact_mod_cast this
  have hstart : (keysOf corpus).getD (pick0 % (keysOf corpus).length) 0
      ∈ corpus.map Prod.fst := by
    have hlt : pick0 % (keysOf corpus).length < (keysOf corpus).length :=
      Nat.mod_lt _ (Nat.pos_of_ne_zero hk)
    exact getD_mem_of_lt _ _ _ hlt
  rcases sampleLoop_ok corpus d pick hWF n 0
      ((keysOf corpus).getD (pick0 % (keysOf corpus).length) 0)
      (fun _ => 0) hstart with ⟨cts, hcts, hsum⟩
  have hzero : (List.map (fun _ => 0) (List.map Prod.fst corpus)).sum = 0 := by
    apply List.sum_eq_zero
    intro x hx
    rcases List.mem_map.mp hx with ⟨a, ha, rfl⟩
    rfl
  have hcsum : ((corpus.map Prod.fst).map cts).sum = n := by
    rw [hsum, hzero]
    omega
  have hps : listSum (corpus.map (fun kv =>
      (kv.1, if 0 < cts kv.1 then (cts kv.1 : ℚ) / (n : ℚ) else 0))) = 1 := by
    rw [listSum_map_entryfun]
    have hcongr : corpus.map (fun kv =>
        if 0 < cts kv.1 then (cts kv.1 : ℚ) / (n : ℚ) else 0)
        = corpus.map (fun kv => (cts kv.1 : ℚ) / (n : ℚ)) := by
      apply List.map_congr_left
      intro kv _
      by_cases h : 0 < cts kv.1
      · rw [if_pos h]
      · rw [if_neg h]
        have h0 : cts kv.1 = 0 := by omega
        rw [h0]
        simp
    rw [hcongr]
    have hmm : corpus.map (fun kv => (cts kv.1 : ℚ) / (n : ℚ))
        = ((corpus.map Prod.fst).map (fun k => ((cts k : Nat) : ℚ))).map
            (fun x => x / (n : ℚ)) := by
      rw [List.map_map, List.map_map]
      rfl
    have hcast : ((corpus.map Prod.fst).map (fun k => ((cts k : Nat) : ℚ))).sum
        = (((corpus.map Prod.fst).map cts).sum : ℚ) := by
      rw [Nat.cast_list_sum]
      simp only [List.map_map]
      rfl
    rw [hmm, sum_map_div, hcast, hcsum]
    exact div_self hnq
  refine ⟨corpus.map (fun kv =>
    (kv.1, if 0 < cts kv.1 then (cts kv.1 : ℚ) / (n : ℚ) else 0)), ?_, hps⟩
  simp only [sample_pagerank]
  rw [if_neg hk]
  simp only [hcts]
  exact checkedNormalize_of_sum_one _ hps

theorem uniformAB : uniformDist corpusAB = [(0, (1:ℚ)/2), (1, (1:ℚ)/2)] := by
  norm_num [uniformDist, corpusAB]

theorem passAB (d : ℚ) :
    iteratePass corpusAB d ((1 - d) / 2) [(0, (1:ℚ)/2), (1, (1:ℚ)/2)]
      = [(0, (1:ℚ)/2), (1, (1:ℚ)/2)] := by
  rw [iteratePass_eq]
  simp [secondCond, corpusAB, lookupD, List.lookup]
  ring

theorem exceedAB :
    exceedCount (1/1000) [(0, (1:ℚ)/2), (1, (1:ℚ)/2)]
      [(0, (1:ℚ)/2), (1, (1:ℚ)/2)] = 0 := by
  simp [exceedCount, lookupD, List.lookup]

theorem loopAB (d : ℚ) (k : Nat) :
    iterateLoop corpusAB d ((1 - d) / 2) (1/1000) (k + 1)
      [(0, (1:ℚ)/2), (1, (1:ℚ)/2)]
      = some [(0, (1:ℚ)/2), (1, (1:ℚ)/2)] := by
  simp only [iterateLoop]
  rw [passAB d, exceedAB]
  rw [if_pos rfl]

/-- C8: on the two-page corpus where each page links only to the other, the
iterative engine converges (in a single pass, since the uniform start is
already the fixed point) and returns rank exactly 1/2 for each page, for any
damping factor in (0,1) and any fuel that lets the loop run at least once. -/
theorem iterate_two_cycle_C8 (fuel : Nat) (d : ℚ) (_hd0 : 0 < d) (_hd1 : d < 1)
    (hf : 1 ≤ fuel) :
    iterate_pagerank fuel corpusAB d
      = some (.ok [(0, (1:ℚ)/2), (1, (1:ℚ)/2)]) := by
  obtain ⟨k, rfl⟩ : ∃ k, fuel = k + 1 := ⟨fuel - 1, by omega⟩
  have hlen : ((uniformDist corpusAB).length : ℚ) = 2 := by
    rw [uniformAB]
    norm_num
  have hlen0 : (uniformDist corpusAB).length ≠ 0 := by
    rw [uniformAB]
    norm_num
  simp only [iterate_pagerank]
  rw [if_neg hlen0, hlen, uniformAB, loopAB d k]
  rw [Option.map_some']
  rw [checkedNormalize_of_sum_one _ (by norm_num [listSum])]

theorem uniform3 :
    uniformDist corpus3 = [(0, (1:ℚ)/3), (1, (1:ℚ)/3), (2, (1:ℚ)/3)] := by
  norm_num [uniformDist, corpus3]

theorem pass3_init :
    iteratePass corpus3 1 0 [(0, (1:ℚ)/3), (1, (1:ℚ)/3), (2, (1:ℚ)/3)]
      = osc1 := by
  rw [iteratePass_eq]
  simp [secondCond, corpus3, osc1, lookupD, List.lookup]
  norm_num

theorem pass3_1 : iteratePass corpus3 1 0 osc1 = osc2 := by
  rw [iteratePass_eq]
  simp [secondCond, corpus3, osc1, osc2, lookupD, List.lookup]

theorem pass3_2 : iteratePass corpus3 1 0 osc2 = osc1 := by
  rw [iteratePass_eq]
  simp [secondCond, corpus3, osc1, osc2, lookupD, List.lookup]

theorem ex3_init :
    exceedCount (1/1000) [(0, (1:ℚ)/3), (1, (1:ℚ)/3), (2, (1:ℚ)/3)] osc1 ≠ 0 := by
  intro h
  rw [exceedCount, List.countP_eq_zero] at h
  have h1 := h 1 (by simp [osc1])
  simp [lookupD, osc1, List.lookup] at h1
  have h2 : ((3:ℚ)⁻¹ - 2/3) = -(1/3) := by norm_num
  rw [h2, abs_neg, abs_of_nonneg (by norm_num : (0:ℚ) ≤ 1/3)] at h1
  norm_num at h1

theorem ex3_1 : exceedCount (1/1000) osc1 osc2 ≠ 0 := by
  intro h
  rw [exceedCount, List.countP_eq_zero] at h
  have h1 := h 1 (by simp [osc2])
  simp [lookupD, osc1, osc2, List.lookup] at h1
  have h2 : ((2:ℚ)/3 - 3⁻¹) = 1/3 := by norm_num
  rw [h2, abs_of_nonneg (by norm_num : (0:ℚ) ≤ 1/3)] at h1
  norm_num at h1

theorem ex3_2 : exceedCount (1/1000) osc2 osc1 ≠ 0 := by
  intro h
  rw [exceedCount, List.countP_eq_zero] at h
  have h1 := h 1 (by simp [osc1])
  simp [lookupD, osc1, osc2, List.lookup] at h1
  have h2 : ((3:ℚ)⁻¹ - 2/3) = -(1/3) := by norm_num
  rw [h2, abs_neg, abs_of_nonneg (by norm_num : (0:ℚ) ≤ 1/3)] at h1
  norm_num at h1

theorem loop3 (k : Nat) :
    iterateLoop corpus3 1 0 (1/1000) k osc1 = none
      ∧ iterateLoop corpus3 1 0 (1/1000) k osc2 = none := by
  induction k with
  | zero => exact ⟨rfl, rfl⟩
  | succ k ih =>
    constructor
    · simp only [iterateLoop]
      rw [pass3_1, if_neg ex3_1]
      exact ih.2
    · simp only [iterateLoop]
      rw [pass3_2, if_neg ex3_2]
      exact ih.1

/-- C6 counterexample: on the corpus `{A:{B}, B:{A}, C:{B}}` with damping
factor 1 (which nothing rejects) the rank vector oscillates with period two
and the per-page change stays at 1/3 forever, so the `while` loop runs
unboundedly: however much fuel it is given, the engine is still looping and
never raises any ConvergenceFailure. -/
theorem iterate_never_caps_C6_cex : iterateNeverTerminates corpus3 1 := by
  intro fuel
  have hlen0 : (uniformDist corpus3).length ≠ 0 := by
    rw [uniform3]
    norm_num
  have hfc : (1 - (1:ℚ)) / ((uniformDist corpus3).length : ℚ) = 0 := by
    norm_num
  simp only [iterate_pagerank]
  rw [if_neg hlen0, hfc, uniform3]
  cases fuel with
  | zero => rfl
  | succ k =>
    simp only [iterateLoop]
    rw [pass3_init, if_neg ex3_init]
    rw [(loop3 k).1]
    rfl

/-! ### Remaining claim theorems -/

/-- Witness for the C8 theorem: one unit of fuel at damping 0.85 already
returns the half-half ranking. -/
theorem iterate_two_cycle_C8_witness :
    iterate_pagerank 1 corpusAB (17/20)
      = some (.ok [(0, (1:ℚ)/2), (1, (1:ℚ)/2)]) :=
  iterate_two_cycle_C8 1 (17/20) (by norm_num) (by norm_num) (by norm_num)

/-- C2: each convergence pass of the iterative engine maps the frozen
snapshot `prev` to a dict whose value at any page `p` of the snapshot is
`(1-d)/len(corpus) + d * sum over the pages q whose link set contains p of
prev[q] / outdegree(q)`.  The pass is a pure function of the snapshot (the
fold writes each key once and reads only `prev`), so no value written during
the pass is read within it, and a page with an empty link set never passes
the membership filter, contributing to no sum. -/
theorem iterate_pass_simultaneous_C2 (corpus : Corpus) (d : ℚ) (prev : PDist)
    (p : Nat) (hp : p ∈ prev.map Prod.fst) :
    lookupD (iteratePass corpus d ((1 - d) / (corpus.length : ℚ)) prev) p
      = (1 - d) / (corpus.length : ℚ)
        + d * ((corpus.filter (fun kv => decide (p ∈ kv.2))).map
            (fun kv => lookupD prev kv.1 / (kv.2.card : ℚ))).sum := by
  rw [lookupD_iteratePass corpus d _ prev p hp, secondCond_eq_filter]

/-- Witness for the C2 theorem at a concrete snapshot over `corpus3`. -/
theorem iterate_pass_simultaneous_C2_witness :
    lookupD (iteratePass corpus3 1 ((1 - 1) / (corpus3.length : ℚ)) osc1) 1
      = (1 - 1) / (corpus3.length : ℚ)
        + 1 * ((corpus3.filter (fun kv => decide (1 ∈ kv.2))).map
            (fun kv => lookupD osc1 kv.1 / (kv.2.card : ℚ))).sum :=
  iterate_pass_simultaneous_C2 corpus3 1 osc1 1 (by simp [osc1])

/-- C4 (amended): for every well-formed non-empty corpus, every damping
factor and every sample count `n ≥ 1`, the sampling engine succeeds with a
ranking summing to 1 within 1e-9 (exactly 1 in exact arithmetic), whatever
the random draws; at `n = 0` it instead raises a ZeroDivisionError (see the
counterexample). -/
theorem sample_pagerank_sums_C4 (corpus : Corpus) (d : ℚ) (n pick0 : Nat)
    (pick : Nat → Nat) (hWF : WFCorpus corpus) (hne : corpus ≠ [])
    (hn : 1 ≤ n) :
    ∃ pr, sample_pagerank corpus d n pick0 pick = .ok pr
      ∧ |listSum pr - 1| ≤ 1 / 1000000000 := by
  rcases sample_pagerank_ok corpus d n pick0 pick hWF hne hn with ⟨pr, h1, h2⟩
  refine ⟨pr, h1, ?_⟩
  rw [h2]
  norm_num

/-- Witness for the C4 theorem at a one-sample run over the two-page
cycle. -/
theorem sample_pagerank_sums_C4_witness :
    ∃ pr, sample_pagerank corpusAB (17/20) 1 0 (fun i => i) = .ok pr
      ∧ |listSum pr - 1| ≤ 1 / 1000000000 :=
  sample_pagerank_sums_C4 corpusAB (17/20) 1 0 (fun i => i) (by decide)
    (by decide) (by decide)

/-- C4 counterexample: at sample count 0 the sampling engine does not return
a Rank Result at all: every count stays 0, the computed total is 0, and the
normalization divides by zero. -/
theorem sample_pagerank_zero_cex_C4 :
    sample_pagerank corpus3 (17/20) 0 0 (fun i => i)
      = .error "ZeroDivisionError" :=
  sample_pagerank_zero corpus3 (17/20) 0 (fun i => i) (by decide)

/-- C5 (amended): sample count 0 on a non-empty corpus fails with the Python
ZeroDivisionError of the final normalization, not with an InvalidArgument
condition; and damping factors 0 and 1 are not rejected anywhere: with
either value the sampling engine runs and succeeds. -/
theorem boundary_behavior_C5 (corpus : Corpus) (d : ℚ) (pick0 : Nat)
    (pick : Nat → Nat) (hWF : WFCorpus corpus) (hne : corpus ≠ []) :
    sample_pagerank corpus d 0 pick0 pick = .error "ZeroDivisionError"
      ∧ (∃ pr, sample_pagerank corpus 0 1 pick0 pick = .ok pr)
      ∧ (∃ pr, sample_pagerank corpus 1 1 pick0 pick = .ok pr) := by
  refine ⟨sample_pagerank_zero corpus d pick0 pick hne, ?_, ?_⟩
  · rcases sample_pagerank_ok corpus 0 1 pick0 pick hWF hne (by omega)
      with ⟨pr, h, _⟩
    exact ⟨pr, h⟩
  · rcases sample_pagerank_ok corpus 1 1 pick0 pick hWF hne (by omega)
      with ⟨pr, h, _⟩
    exact ⟨pr, h⟩

/-- Witness for the C5 theorem on the two-page cycle at damping 0.85. -/
theorem boundary_behavior_C5_witness :
    sample_pagerank corpusAB (17/20) 0 0 (fun i => i)
        = .error "ZeroDivisionError"
      ∧ (∃ pr, sample_pagerank corpusAB 0 1 0 (fun i => i) = .ok pr)
      ∧ (∃ pr, sample_pagerank corpusAB 1 1 0 (fun i => i) = .ok pr) :=
  boundary_behavior_C5 corpusAB (17/20) 0 (fun i => i) (by decide) (by decide)

/-- C5 counterexample: the `n = 0` call raises ZeroDivisionError rather than
any InvalidArgument condition, and the boundary damping factors 0 and 1 are
accepted: the sampling engine completes successfully with them. -/
theorem boundary_not_rejected_cex_C5 :
    sample_pagerank corpusAB (17/20) 0 1 (fun i => i + 1)
        = .error "ZeroDivisionError"
      ∧ (sample_pagerank corpusAB 0 2 0 (fun i => i)).isOk = true
      ∧ (sample_pagerank corpusAB 1 2 0 (fun i => i)).isOk = true := by
  refine ⟨sample_pagerank_zero corpusAB (17/20) 1 (fun i => i + 1) (by decide),
    ?_, ?_⟩
  · rcases sample_pagerank_ok corpusAB 0 2 0 (fun i => i) (by decide)
      (by decide) (by omega) with ⟨pr, h, _⟩
    rw [h]
    rfl
  · rcases sample_pagerank_ok corpusAB 1 2 0 (fun i => i) (by decide)
      (by decide) (by omega) with ⟨pr, h, _⟩
    rw [h]
    rfl

/-- C6 (amended): the iterative engine has no iteration cap and no
ConvergenceFailure condition: whatever the fuel, the corpus and the damping
factor, it never returns a ConvergenceFailure error (its only failure modes
are the ZeroDivisionError of an empty corpus or zero total and the sum-check
exception); on pathological input its loop simply runs forever. -/
theorem iterate_no_convergence_failure_C6 (fuel : Nat) (corpus : Corpus)
    (d : ℚ) :
    iterate_pagerank fuel corpus d ≠ some (.error "ConvergenceFailure") := by
  intro h
  rcases iterate_pagerank_error_cases fuel corpus d _ h with h1 | h1
  · exact absurd h1 (by decide)
  · rw [sumErr] at h1
    exact absurd h1 (by decide)
